import Mathlib

/-!
Verification of the creature-simulation core of a round-based herding game
(bevy-jam-7) against its natural-language specification.

The Rust source is shallowly embedded: `f32` arithmetic is modelled exactly
over `ℚ` (or `ℝ` where square roots occur), Bevy's `Timer` (mode `Once`) is
modelled explicitly, random draws become explicit input streams, and each ECS
system becomes a pure state-passing function.
-/

namespace Game

/-- Planar vector, the model of `glam::Vec2` (components exact instead of `f32`). -/
structure V2 (a : Type) where
  x : a
  y : a
deriving DecidableEq

instance {a : Type} [Add a] : Add (V2 a) := ⟨fun u v => ⟨u.x + v.x, u.y + v.y⟩⟩

instance {a : Type} [Sub a] : Sub (V2 a) := ⟨fun u v => ⟨u.x - v.x, u.y - v.y⟩⟩

instance {a : Type} [Neg a] : Neg (V2 a) := ⟨fun v => ⟨-v.x, -v.y⟩⟩

/-- Scalar multiple of a vector (`v * k` in the source). -/
def V2.scale {a : Type} [Mul a] (k : a) (v : V2 a) : V2 a := ⟨k * v.x, k * v.y⟩

/-- `Vec2::length_squared`: `x*x + y*y`. -/
def V2.lengthSq {a : Type} [Mul a] [Add a] (v : V2 a) : a := v.x * v.x + v.y * v.y

/-- `Vec2::distance_squared`. -/
def V2.distSq {a : Type} [Mul a] [Add a] [Sub a] (u v : V2 a) : a := (u - v).lengthSq

/-- `Vec2::perp`: the counterclockwise perpendicular `(-y, x)`. -/
def V2.perp {a : Type} [Neg a] (v : V2 a) : V2 a := ⟨-v.y, v.x⟩

/-- `transform.translation`, the model of the 3-component position. -/
structure V3 where
  x : ℚ
  y : ℚ
  z : ℚ
deriving DecidableEq

/-- `Vec3::xz` — the planar part of a translation. -/
def V3.xz (p : V3) : V2 ℚ := ⟨p.x, p.z⟩

/-- `LevelBounds` from `level.rs`: an axis-aligned rectangle given by corners. -/
structure Bounds (a : Type) where
  min : V2 a
  max : V2 a
deriving DecidableEq

/-- `f32::clamp(lo, hi)` (Rust: `self.max(min).min(max)`). -/
def clampNum {a : Type} [LinearOrder a] (x lo hi : a) : a := min (max x lo) hi

/-- `LevelBounds::clamp_to_bounds`: componentwise clamp of a planar position. -/
def Bounds.clampToBounds {a : Type} [LinearOrder a] (b : Bounds a) (pos : V2 a) : V2 a :=
  ⟨clampNum pos.x b.min.x b.max.x, clampNum pos.y b.min.y b.max.y⟩

/-- The bounds rectangle inserted as the `LevelBounds` resource in `level.rs`:
`min = (-27.6, -39.6)`, `max = (27.6, 7.6)`. -/
def levelBounds : Bounds ℚ := ⟨⟨-(138/5), -(198/5)⟩, ⟨138/5, 38/5⟩⟩

/-- Membership of a planar point in a bounds rectangle, componentwise. -/
def inBounds {a : Type} [LinearOrder a] (b : Bounds a) (v : V2 a) : Prop :=
  b.min.x ≤ v.x ∧ v.x ≤ b.max.x ∧ b.min.y ≤ v.y ∧ v.y ≤ b.max.y

instance {a : Type} [LinearOrder a] (b : Bounds a) (v : V2 a) : Decidable (inBounds b v) := by
  unfold inBounds; infer_instance

/-- Bevy `Timer` in mode `TimerMode::Once`, with exact rational time. -/
structure Timer where
  duration : ℚ
  elapsed : ℚ
  finished : Bool
  justFinished : Bool
deriving DecidableEq

/-- `Timer::from_seconds(d, TimerMode::Once)`. -/
def Timer.fromSeconds (d : ℚ) : Timer := ⟨d, 0, false, false⟩

/-- `Timer::tick` for mode `Once`: a finished timer is left untouched; otherwise
elapsed advances and saturates at the duration, setting the finished flags. -/
def Timer.tick (t : Timer) (delta : ℚ) : Timer :=
  if t.finished then
    { t with justFinished := false }
  else
    let e := t.elapsed + delta
    if t.duration ≤ e then
      { t with elapsed := t.duration, finished := true, justFinished := true }
    else
      { t with elapsed := e, finished := false, justFinished := false }

/-- `Timer::reset`. -/
def Timer.reset (t : Timer) : Timer :=
  { t with elapsed := 0, finished := false, justFinished := false }

/-- `Timer::set_duration`. -/
def Timer.setDuration (t : Timer) (d : ℚ) : Timer := { t with duration := d }

/-- `Timer::fraction`: elapsed over duration (1 for a zero duration). -/
def Timer.fraction (t : Timer) : ℚ :=
  if t.duration = 0 then 1 else t.elapsed / t.duration

/-- Well-formedness of a timer: elapsed time sits between 0 and the duration. -/
def Timer.Wf (t : Timer) : Prop := 0 ≤ t.elapsed ∧ t.elapsed ≤ t.duration

/-- `HopMovementController` from `movement.rs`. -/
structure HopMovementController where
  intent : V2 ℚ
  current_hop_src : Option (V2 ℚ)
  current_hop_dest : Option (V2 ℚ)
  move_speed_mult : ℚ
  hop_speed_mult : ℚ
  time_between_hops : ℚ
  hop_time_length : ℚ
  airborne : Bool
  timer : Timer
deriving DecidableEq

/-- `HopMovementController::default` from `movement.rs`. -/
def HopMovementController.default : HopMovementController where
  intent := ⟨0, 0⟩
  current_hop_src := none
  current_hop_dest := none
  move_speed_mult := 3
  hop_speed_mult := 1
  time_between_hops := 1/5
  hop_time_length := 3/10
  airborne := false
  timer := Timer.fromSeconds (1/2)

/-- `HopMovementController::update`: ticks the hop timer (scaled by
`hop_speed_mult`); on completion either lands (if airborne) or, when the
intent is more than `0.4` squared units away, starts a hop by capturing both
endpoints.  Returns the controller plus the "just started a hop" flag. -/
def HopMovementController.update (c : HopMovementController) (deltaSecs : ℚ)
    (currentPos : V2 ℚ) : HopMovementController × Bool :=
  let c := { c with timer := c.timer.tick (deltaSecs * c.hop_speed_mult) }
  if c.timer.finished then
    if c.airborne then
      ({ c with airborne := false,
                timer := (c.timer.setDuration c.time_between_hops).reset }, false)
    else
      if 2/5 < c.intent.distSq currentPos then
        ({ c with airborne := true,
                  timer := (c.timer.setDuration c.hop_time_length).reset,
                  current_hop_src := some currentPos,
                  current_hop_dest := some c.intent }, true)
      else (c, false)
  else (c, false)

/-- `egui::lerp(a..=b, t)`: the affine interpolation `(1 - t) * a + t * b`. -/
def lerp (a b t : ℚ) : ℚ := (1 - t) * a + t * b

/-- `jump_height` from `movement.rs`: the parabola `4 * t * (1 - t)`. -/
def jumpHeight (t : ℚ) : ℚ := 4 * t * (1 - t)

/-- One `apply_hop_movement` step for a single actor: re-clamp the intent to
bounds, run the controller update, and while airborne place the translation at
the interpolation between the hop source and the re-clamped hop destination,
with the parabolic height (rotation and audio are host-side effects and carry
no simulation state). -/
def applyHopMovement (b : Bounds ℚ) (deltaSecs : ℚ) (c : HopMovementController)
    (p : V3) : HopMovementController × V3 :=
  let c := { c with intent := b.clampToBounds c.intent }
  let r := c.update deltaSecs p.xz
  let c := r.1
  let p :=
    if c.airborne then
      match c.current_hop_src, c.current_hop_dest with
      | some src, some dest =>
        let dest := b.clampToBounds dest
        { x := lerp src.x dest.x c.timer.fraction,
          y := jumpHeight c.timer.fraction,
          z := lerp src.y dest.y c.timer.fraction }
      | _, _ => p
    else p
  (c, p)

/-- Iterating the integrator over a list of per-tick elapsed times. -/
def applyHopMovementRun (b : Bounds ℚ) (dts : List ℚ)
    (c : HopMovementController) (p : V3) : HopMovementController × V3 :=
  match dts with
  | [] => (c, p)
  | dt :: rest =>
    let s := applyHopMovement b dt c p
    applyHopMovementRun b rest s.1 s.2

/-- `SheepColor` from `sheep.rs`. -/
inductive SheepColor
  | White
  | Black
  | Blue
  | Red
  | Gold
deriving DecidableEq

/-- `Charm` from `shop/items.rs`. -/
inductive Charm
  | GoldenSheep
  | HalfTimeDoubleSheep
  | ChanceBlueOnBuy
  | ChanceRedOnBuy
  | Exponential
  | WellTrained
  | DoubleCountRadius
  | Evolution
  | Cloning
  | ShopCount
  | Ink
  | RedToGold
deriving DecidableEq

/-- `Charm::price` from `shop/items.rs`. -/
def Charm.price : Charm → ℕ
  | .GoldenSheep => 5
  | .HalfTimeDoubleSheep => 4
  | .ChanceBlueOnBuy => 3
  | .ChanceRedOnBuy => 3
  | .Exponential => 5
  | .WellTrained => 4
  | .DoubleCountRadius => 3
  | .Evolution => 5
  | .Cloning => 4
  | .ShopCount => 3
  | .Ink => 3
  | .RedToGold => 4

/-- `Modifier` from `modifiers.rs`. -/
inductive Modifier
  | HyperSheep
  | MoonGravity
  | Ufo
  | Space
  | TeleportingBark
  | Vignette
  | Night
  | SheepSphere
  | DogSphere
  | FeverDream
deriving DecidableEq

/-- `ModifierDifficulty` from `modifiers.rs`. -/
inductive ModifierDifficulty
  | Easy
  | Medium
  | Hard
deriving DecidableEq

/-- `Modifier::difficulty`. -/
def Modifier.difficulty : Modifier → ModifierDifficulty
  | .HyperSheep => .Easy
  | .MoonGravity => .Medium
  | .Ufo => .Hard
  | .Space => .Hard
  | .TeleportingBark => .Hard
  | .Vignette => .Hard
  | .Night => .Medium
  | .SheepSphere => .Medium
  | .DogSphere => .Easy
  | .FeverDream => .Hard

/-- `ModifierDifficulty::coins_given`. -/
def ModifierDifficulty.coinsGiven : ModifierDifficulty → ℕ
  | .Easy => 4
  | .Medium => 5
  | .Hard => 6

/-- `GameState` from `state/mod.rs` (run-scoped counters; the countdown timer
is kept for fidelity, machine integers are modelled as `ℕ`). -/
structure GameState where
  completed_rounds : ℕ
  sheep_count : ℕ
  blue_sheep_count : ℕ
  red_sheep_count : ℕ
  black_sheep_count : ℕ
  gold_sheep_count : ℕ
  countdown : Timer
  points : ℕ
  point_target : ℕ
  active_modifiers : List Modifier
  money : ℕ
  charms : List Charm
  max_charms : ℕ
  player_bark_radius : ℚ
deriving DecidableEq

/-- `GameState::default` from `state/mod.rs`. -/
def GameState.default : GameState where
  completed_rounds := 0
  sheep_count := 10
  blue_sheep_count := 1
  red_sheep_count := 1
  black_sheep_count := 0
  gold_sheep_count := 0
  countdown := Timer.fromSeconds 70
  points := 0
  point_target := 3
  active_modifiers := []
  money := 0
  charms := []
  max_charms := 4
  player_bark_radius := 12

/-- `GameState::is_modifier_active`. -/
def GameState.isModifierActive (s : GameState) (m : Modifier) : Bool :=
  s.active_modifiers.contains m

/-- `GameState::is_charm_active`. -/
def GameState.isCharmActive (s : GameState) (c : Charm) : Bool :=
  s.charms.contains c

/-- `RoundStats` from `state/mod.rs`: per-round counters. -/
structure RoundStats where
  sheep_counted : ℕ
  white_sheep_counted : ℕ
  black_sheep_counted : ℕ
deriving DecidableEq

/-- `RoundStats::default`. -/
def RoundStats.default : RoundStats := ⟨0, 0, 0⟩

/-- The reset performed by `on_herding` in `state/herding.rs` at the start of
every round (herding-phase entry): `*round_stats = RoundStats::default()`. -/
def onHerdingResetStats (_ : RoundStats) : RoundStats := RoundStats.default

/-- `floor(points as f32 * 1.5) as u32` from the red-sheep branch of
`sheep_goal_check`, modelled exactly over `ℚ`. -/
def floorPointsTimes15 (p : ℕ) : ℕ := (Int.floor ((p : ℚ) * (3/2))).toNat

/-- Outcome of resolving one creature at the goal. -/
structure GoalScore where
  state : GameState
  stats : RoundStats
  spawnedBlackSheep : ℕ
deriving DecidableEq

/-- The scoring body of `sheep_goal_check` in `sheep.rs` for one creature in
`BeingCounted` whose squared distance to the goal is below `1.5`: the cloning
bookkeeping for the first creature counted this round, then the per-color
resolution, then the `sheep_counted` increment.  The two black replacements
spawned under the `Exponential` charm are reported as a count. -/
def sheepGoalScore (state : GameState) (stats : RoundStats) (color : SheepColor) : GoalScore :=
  let isFirstCounted : Bool := stats.sheep_counted = 0
  let state :=
    if isFirstCounted && state.isCharmActive .Cloning then
      let state := { state with sheep_count := state.sheep_count + 1 }
      match color with
      | .Blue => { state with blue_sheep_count := state.blue_sheep_count + 1 }
      | .Red => { state with red_sheep_count := state.red_sheep_count + 1 }
      | .Black => { state with black_sheep_count := state.black_sheep_count + 1 }
      | .Gold => { state with gold_sheep_count := state.gold_sheep_count + 1 }
      | _ => state
    else state
  let r : GoalScore :=
    match color with
    | .White =>
      if state.isCharmActive .Evolution then
        let stats := { stats with white_sheep_counted := stats.white_sheep_counted + 1 }
        if stats.white_sheep_counted % 5 = 0 then
          ⟨{ state with blue_sheep_count := state.blue_sheep_count + 1 }, stats, 0⟩
        else
          ⟨state, stats, 0⟩
      else
        ⟨{ state with points := state.points + 1 }, stats, 0⟩
    | .Blue =>
      ⟨{ state with points := state.points + 5 }, stats, 0⟩
    | .Red =>
      let state :=
        if isFirstCounted && state.isCharmActive .RedToGold then
          { state with red_sheep_count := state.red_sheep_count - 1,
                       gold_sheep_count := state.gold_sheep_count + 1 }
        else state
      ⟨{ state with points := floorPointsTimes15 state.points }, stats, 0⟩
    | .Black =>
      let stats := { stats with black_sheep_counted := stats.black_sheep_counted + 1 }
      let state := { state with points := state.points + 1 }
      ⟨state, stats, if state.isCharmActive .Exponential then 2 else 0⟩
    | .Gold =>
      ⟨{ state with money := state.money + 1 }, stats, 0⟩
  { r with stats := { r.stats with sheep_counted := r.stats.sheep_counted + 1 } }

/-- The draw loop of `GameState::pick_random_modifiers`: `fuel` is the number
of attempts still allowed (100 at entry), `attempts` indexes the next draw of
the random stream, `choices` is the accumulator. -/
def pickRandomModifiersAux (active : List Modifier) (count : ℕ) (stream : ℕ → Modifier) :
    ℕ → ℕ → List Modifier → List Modifier
  | 0, _, choices => choices
  | fuel + 1, attempts, choices =>
    if choices.length < count then
      if stream attempts ∈ active ∨ stream attempts ∈ choices then
        pickRandomModifiersAux active count stream fuel (attempts + 1) choices
      else
        pickRandomModifiersAux active count stream fuel (attempts + 1)
          (choices ++ [stream attempts])
    else choices

/-- `GameState::pick_random_modifiers`, with the RNG as an explicit stream of
draws: collect up to `count` modifiers that are neither active nor already
chosen, giving up after 100 attempts. -/
def pickRandomModifiers (active : List Modifier) (count : ℕ) (stream : ℕ → Modifier) :
    List Modifier :=
  pickRandomModifiersAux active count stream 100 0 []

/-- `NewRoundInfo` from `state/mod.rs`. -/
structure NewRoundInfo where
  removed_modifier : Option Modifier
  modifier_choices : List Modifier

/-- `GameState::new_round`: bump the round counter, reset points, raise the
point target by `2 + point_target / 10`, evict the oldest modifier once more
than 2 are active, and draw 2 modifier candidates. -/
def GameState.newRound (s : GameState) (stream : ℕ → Modifier) :
    GameState × NewRoundInfo :=
  let s := { s with completed_rounds := s.completed_rounds + 1,
                    points := 0,
                    point_target := s.point_target + (2 + s.point_target / 10) }
  let removed := if 2 < s.active_modifiers.length then s.active_modifiers.head? else none
  let s := if 2 < s.active_modifiers.length
    then { s with active_modifiers := s.active_modifiers.tail }
    else s
  let choices := pickRandomModifiers s.active_modifiers 2 stream
  (s, ⟨removed, choices⟩)

/-- The "Choose" handler in `state/modifier_choice.rs`: push the chosen
modifier and credit the difficulty-based money reward. -/
def chooseModifier (s : GameState) (m : Modifier) : GameState :=
  { s with active_modifiers := s.active_modifiers ++ [m],
           money := s.money + m.difficulty.coinsGiven }

/-- `sell_charm` from `state/shop/ui.rs`: a no-op on an empty slot, otherwise
the charm leaves the owned list and its full purchase price is credited. -/
def sellCharm (slot : ℕ) (s : GameState) : GameState :=
  match s.charms[slot]? with
  | none => s
  | some charm =>
    { s with charms := s.charms.eraseIdx slot, money := s.money + charm.price }

/-- The sell price displayed by `charm_card` in `state/shop/ui.rs`:
`floor(charm.price() as f32 / 2.0)`. -/
def charmCardSellPrice (c : Charm) : ℕ := c.price / 2

/-- `SheepState` from `sheep.rs`. -/
inductive SheepState
  | Wander (timer : Timer)
  | Evading (dangerPos : V2 ℚ)
  | Spooked (dangerPos : V2 ℚ)
  | BeingCounted
  | BeingAbducted
deriving DecidableEq

/-- `Sheep::is_being_abducted`. -/
def SheepState.isBeingAbducted : SheepState → Bool
  | .BeingAbducted => true
  | _ => false

/-- `matches!(self.state, SheepState::BeingCounted)`. -/
def SheepState.isBeingCounted : SheepState → Bool
  | .BeingCounted => true
  | _ => false

/-- `Sheep::start_abduction`: refuse (returning `false`, state untouched) when
already abducted or being counted, otherwise enter `BeingAbducted` and return
`true`. -/
def startAbduction (st : SheepState) : SheepState × Bool :=
  if st.isBeingAbducted || st.isBeingCounted then (st, false)
  else (SheepState.BeingAbducted, true)

/-- The wander intent computed by `sheep_wander` in `sheep.rs` once the wander
timer fires: the current position stepped along the chosen heading, clamped to
the level bounds before being stored as the movement intent. -/
def wanderTarget (b : Bounds ℚ) (pos dir : V2 ℚ) (stepDistance : ℚ) : V2 ℚ :=
  b.clampToBounds (pos + V2.scale stepDistance dir)

/-- The hop-movement tuning derived in `sheep` (sheep.rs) from the active
modifiers: base values then the `MoonGravity` and `HyperSheep` adjustments. -/
structure SheepHopParams where
  move_speed_mult : ℚ
  hop_speed_mult : ℚ
  time_between_hops : ℚ
  hop_time_length : ℚ
  jump_height_mult : ℚ
deriving DecidableEq

/-- The parameter derivation in `sheep` (sheep.rs lines 216-232). -/
def sheepHopParams (moonGravity hyperSheep : Bool) : SheepHopParams :=
  let p : SheepHopParams := ⟨2, 5/2, 1/5, 3/10, 1⟩
  let p := if moonGravity then
      { p with hop_speed_mult := p.hop_speed_mult * (1/2),
               hop_time_length := p.hop_time_length + 1/2,
               jump_height_mult := p.jump_height_mult * 6 }
    else p
  let p := if hyperSheep then
      { p with hop_speed_mult := p.hop_speed_mult * 2,
               move_speed_mult := p.move_speed_mult * (13/10),
               time_between_hops := p.time_between_hops * (1/10) }
    else p
  p

/-- Modelled from the spec: the airborne vertical offset the specification
asserts, `jumpHeightMult * 4 * t * (1 - t)`; the source's `jump_height` has no
such multiplier. -/
def specAirborneHeight (jumpHeightMult t : ℚ) : ℚ := jumpHeightMult * (4 * t * (1 - t))

/-- `Vec2::length`: the Euclidean norm (real-valued, since it needs `sqrt`). -/
noncomputable def V2.length (v : V2 ℝ) : ℝ := Real.sqrt v.lengthSq

/-- `Vec2::normalize_or`: the unit vector in the direction of `v`, or the
fallback for the zero vector. -/
noncomputable def V2.normalizeOr (v fallback : V2 ℝ) : V2 ℝ :=
  if v = ⟨0, 0⟩ then fallback else V2.scale (1 / v.length) v

/-- `Vec2::normalize_or_zero`. -/
noncomputable def V2.normalizeOrZero (v : V2 ℝ) : V2 ℝ := v.normalizeOr ⟨0, 0⟩

/-- `pick_evasion_dir` from `sheep.rs`: return the preferred escape direction
when stepping along it is not clamped by the walls; otherwise compare the
preferred direction against its two perpendiculars and its negation by the
squared displacement their clamped targets achieve, keeping the first
strictly-best candidate. -/
noncomputable def pickEvasionDir (pos preferred : V2 ℝ) (b : Bounds ℝ) : V2 ℝ :=
  let candidates := [preferred.perp, -preferred.perp, -preferred]
  let target := b.clampToBounds (pos + preferred)
  if target = pos + preferred then preferred
  else
    let best := candidates.foldl
      (fun acc dir =>
        let target := b.clampToBounds (pos + dir)
        let score := target.distSq pos
        if acc.2 < score then (dir, score) else acc)
      (preferred, target.distSq pos)
    best.1

/-- The score `pick_evasion_dir` compares: the squared displacement achieved
by stepping along `d` and clamping the resulting target to bounds. -/
noncomputable def evasionScore (b : Bounds ℝ) (pos d : V2 ℝ) : ℝ :=
  (b.clampToBounds (pos + d)).distSq pos

/-- The running accumulator of the neighbor scan in `sheep_herding`. -/
structure HerdScan where
  center : V2 ℝ
  nearbyCount : ℝ
  separation : V2 ℝ
  sampled : ℕ

/-- Processing one scanned snapshot entry in `sheep_herding`: ignore it beyond
`HERD_RADIUS_SQ = 100`; otherwise accumulate the centroid and neighbor count,
and within `HERD_SEPARATION_RADIUS_SQ = 5.76` also the push-away vector scaled
by `(2.4 - dist) / 2.4`. -/
noncomputable def herdScanStep (pos : V2 ℝ) (acc : HerdScan) (otherPos : V2 ℝ) : HerdScan :=
  let offset := otherPos - pos
  let dSq := offset.lengthSq
  if 100 < dSq then acc
  else
    let acc := { acc with center := acc.center + otherPos,
                          nearbyCount := acc.nearbyCount + 1,
                          sampled := acc.sampled + 1 }
    if 0 < dSq ∧ dSq < 144/25 then
      let dist := Real.sqrt dSq
      let pushStrength := (12/5 - dist) / (12/5)
      { acc with separation :=
          acc.separation + V2.scale pushStrength ((pos - otherPos).normalizeOr ⟨1, 0⟩) }
    else acc

/-- The neighbor scan of `sheep_herding` over the snapshot entries reachable
from the creature's 3x3 cell block, in scan order and excluding the creature
itself; scanning stops once `HERD_MAX_NEIGHBORS = 20` neighbors were
sampled. -/
noncomputable def herdScan (pos : V2 ℝ) : List (V2 ℝ) → HerdScan → HerdScan
  | [], acc => acc
  | o :: rest, acc =>
    let acc := herdScanStep pos acc o
    if 20 ≤ acc.sampled then acc else herdScan pos rest acc

/-- The empty scan accumulator. -/
def herdScanInit : HerdScan := ⟨⟨0, 0⟩, 0, ⟨0, 0⟩, 0⟩

/-- The `herd_dir` written by `sheep_herding` for one refreshed creature: zero
when no neighbor was found, otherwise the normalized sum of the weighted
normalized cohesion offset (`HERD_COHESION_WEIGHT = 0.9`) and the weighted
normalized separation push (`HERD_SEPARATION_WEIGHT = 1.5`). -/
noncomputable def herdDirUpdate (pos : V2 ℝ) (others : List (V2 ℝ)) : V2 ℝ :=
  let s := herdScan pos others herdScanInit
  if s.nearbyCount ≤ 0 then ⟨0, 0⟩
  else
    let cohesion := V2.scale (9/10) (V2.scale (1 / s.nearbyCount) s.center - pos).normalizeOrZero
    let avoid := V2.scale (3/2) s.separation.normalizeOrZero
    (cohesion + avoid).normalizeOrZero

/-- Modelled from the spec: the final combination the specification asserts,
`normalize(cohesionWeight * (centroid/count - pos) +
separationWeight * normalize(pushVector))` — the cohesion offset enters
unnormalized, unlike the source, which normalizes it first. -/
noncomputable def specHerdDir (pos : V2 ℝ) (others : List (V2 ℝ)) : V2 ℝ :=
  let s := herdScan pos others herdScanInit
  if s.nearbyCount ≤ 0 then ⟨0, 0⟩
  else
    (V2.scale (9/10) (V2.scale (1 / s.nearbyCount) s.center - pos) +
      V2.scale (3/2) s.separation.normalizeOrZero).normalizeOrZero

/-- A controller with its movement intent replaced (how behavior code feeds
the integrator). -/
def HopMovementController.withIntent (c : HopMovementController) (i : V2 ℚ) :
    HopMovementController := { c with intent := i }

/-- Numeric well-formedness of a hop controller: a well-formed timer and
nonnegative tuning knobs. -/
def hopWf (c : HopMovementController) : Prop :=
  c.timer.Wf ∧ 0 ≤ c.time_between_hops ∧ 0 ≤ c.hop_time_length ∧ 0 ≤ c.hop_speed_mult

/-- The positional invariant of the integrator: the actor's planar position is
in bounds, and while airborne both hop endpoints are present with an in-bounds
source. -/
def hopInv (b : Bounds ℚ) (c : HopMovementController) (p : V3) : Prop :=
  inBounds b p.xz ∧
  (c.airborne = true → ∃ src dest, c.current_hop_src = some src ∧
    c.current_hop_dest = some dest ∧ inBounds b src)

/-- The endpoint discipline the integrator actually maintains: an airborne
controller has both endpoints set, and the two endpoint options are set or
cleared together. -/
def endpointsAligned (c : HopMovementController) : Prop :=
  (c.airborne = true → c.current_hop_src.isSome = true ∧
    c.current_hop_dest.isSome = true) ∧
  (c.current_hop_src.isSome = c.current_hop_dest.isSome)

/-- The snapshot entries within `HERD_RADIUS` of the refreshed creature, in
scan order. -/
noncomputable def herdNear (pos : V2 ℝ) (others : List (V2 ℝ)) : List (V2 ℝ) :=
  others.filter fun o => (o - pos).lengthSq ≤ 100

/-- The sum of the in-radius neighbor positions (the unscaled centroid). -/
noncomputable def herdCentroidSum (pos : V2 ℝ) (others : List (V2 ℝ)) : V2 ℝ :=
  (herdNear pos others).foldl (fun acc o => acc + o) ⟨0, 0⟩

/-- The push-away contribution of one neighbor: within the separation radius
(and not coincident) the normalized away direction scaled by
`(separationRadius - dist) / separationRadius`, zero otherwise. -/
noncomputable def sepContribution (pos o : V2 ℝ) : V2 ℝ :=
  if 0 < (o - pos).lengthSq ∧ (o - pos).lengthSq < 144/25 then
    V2.scale ((12/5 - Real.sqrt ((o - pos).lengthSq)) / (12/5))
      ((pos - o).normalizeOr ⟨1, 0⟩)
  else ⟨0, 0⟩

/-- The accumulated push-away vector over the in-radius neighbors (neighbors
outside the separation radius contribute zero). -/
noncomputable def herdSeparationSum (pos : V2 ℝ) (others : List (V2 ℝ)) : V2 ℝ :=
  (herdNear pos others).foldl (fun acc o => acc + sepContribution pos o) ⟨0, 0⟩

/-! ## Helper lemmas -/

theorem V2.add_def {a : Type} [Add a] (u v : V2 a) :
    u + v = ⟨u.x + v.x, u.y + v.y⟩ := rfl

theorem V2.sub_def {a : Type} [Sub a] (u v : V2 a) :
    u - v = ⟨u.x - v.x, u.y - v.y⟩ := rfl

theorem V2.neg_def {a : Type} [Neg a] (v : V2 a) : -v = ⟨-v.x, -v.y⟩ := rfl

theorem clampNum_mem {a : Type} [LinearOrder a] {lo hi : a} (x : a) (h : lo ≤ hi) :
    lo ≤ clampNum x lo hi ∧ clampNum x lo hi ≤ hi := by
  unfold clampNum
  constructor
  · exact le_min (le_max_right x lo) h
  · exact min_le_right _ _

theorem clampToBounds_mem {a : Type} [LinearOrder a] (b : Bounds a) (v : V2 a)
    (hx : b.min.x ≤ b.max.x) (hy : b.min.y ≤ b.max.y) :
    inBounds b (b.clampToBounds v) := by
  obtain ⟨h1, h2⟩ := clampNum_mem v.x hx
  obtain ⟨h3, h4⟩ := clampNum_mem v.y hy
  exact ⟨h1, h2, h3, h4⟩

theorem clampNum_eq_self {a : Type} [LinearOrder a] {x lo hi : a}
    (h1 : lo ≤ x) (h2 : x ≤ hi) : clampNum x lo hi = x := by
  unfold clampNum
  rw [max_eq_left h1, min_eq_left h2]

theorem lerp_mem {lo hi s d t : ℚ} (hs1 : lo ≤ s) (hs2 : s ≤ hi) (hd1 : lo ≤ d)
    (hd2 : d ≤ hi) (ht0 : 0 ≤ t) (ht1 : t ≤ 1) :
    lo ≤ lerp s d t ∧ lerp s d t ≤ hi := by
  unfold lerp
  constructor <;> nlinarith

theorem Timer.tick_wf {t : Timer} (h : t.Wf) {dt : ℚ} (hdt : 0 ≤ dt) :
    (t.tick dt).Wf := by
  obtain ⟨h0, h1⟩ := h
  unfold Timer.tick Timer.Wf
  split
  · exact ⟨h0, h1⟩
  · dsimp only
    split
    · exact ⟨le_trans h0 h1, le_refl _⟩
    · rename_i hlt
      constructor
      · show (0 : ℚ) ≤ t.elapsed + dt
        linarith
      · show t.elapsed + dt ≤ t.duration
        linarith [lt_of_not_le hlt]

theorem Timer.reset_wf {t : Timer} {d : ℚ} (hd : 0 ≤ d) :
    ((t.setDuration d).reset).Wf := by
  exact ⟨le_refl 0, hd⟩

theorem Timer.fraction_mem {t : Timer} (h : t.Wf) :
    0 ≤ t.fraction ∧ t.fraction ≤ 1 := by
  obtain ⟨h0, h1⟩ := h
  unfold Timer.fraction
  split
  · exact ⟨zero_le_one, le_refl 1⟩
  · rename_i hdz
    have hd : 0 < t.duration := lt_of_le_of_ne (le_trans h0 h1) (Ne.symm hdz)
    exact ⟨div_nonneg h0 (le_of_lt hd), (div_le_one hd).mpr h1⟩

/-! ## C9 — abduction-request guard -/

/-- C9: a start-abduction request succeeds (state becomes `BeingAbducted`,
result `true`) exactly when the creature is in neither `BeingAbducted` nor
`BeingCounted`; in those two states it is a silent no-op returning `false`,
so `BeingAbducted` is never entered from `BeingCounted`. -/
theorem start_abduction_guard (st : SheepState) :
    ((startAbduction st).2 = true ↔
      st ≠ SheepState.BeingAbducted ∧ st ≠ SheepState.BeingCounted) ∧
    ((startAbduction st).2 = true → (startAbduction st).1 = SheepState.BeingAbducted) ∧
    ((startAbduction st).2 = false → (startAbduction st).1 = st) ∧
    startAbduction SheepState.BeingCounted = (SheepState.BeingCounted, false) := by
  unfold startAbduction
  cases st <;>
    simp [SheepState.isBeingAbducted, SheepState.isBeingCounted]

/-- Witness for C9 at the wandering state. -/
theorem start_abduction_guard_witness :
    ((startAbduction (SheepState.Wander (Timer.fromSeconds 1))).2 = true ↔
      SheepState.Wander (Timer.fromSeconds 1) ≠ SheepState.BeingAbducted ∧
      SheepState.Wander (Timer.fromSeconds 1) ≠ SheepState.BeingCounted) ∧
    ((startAbduction (SheepState.Wander (Timer.fromSeconds 1))).2 = true →
      (startAbduction (SheepState.Wander (Timer.fromSeconds 1))).1 =
        SheepState.BeingAbducted) ∧
    ((startAbduction (SheepState.Wander (Timer.fromSeconds 1))).2 = false →
      (startAbduction (SheepState.Wander (Timer.fromSeconds 1))).1 =
        SheepState.Wander (Timer.fromSeconds 1)) ∧
    startAbduction SheepState.BeingCounted = (SheepState.BeingCounted, false) :=
  start_abduction_guard (SheepState.Wander (Timer.fromSeconds 1))

/-! ## C5 — charm selling -/

/-- C5: the claim (and the `Sell (+n)` label built by `charm_card`) say a sold
charm refunds `floor(price/2)`, but `sell_charm` credits the full purchase
price: selling the owned Golden Sheep charm (price 5) pays 5, while the label
computed from the same state advertises 2. -/
theorem sell_charm_full_price_refund :
    (sellCharm 0 { GameState.default with charms := [Charm.GoldenSheep] }).money = 5 ∧
    (sellCharm 0 { GameState.default with charms := [Charm.GoldenSheep] }).charms = [] ∧
    charmCardSellPrice Charm.GoldenSheep = 2 ∧ (5 : ℕ) ≠ 2 := by
  decide

/-! ## C6 — hop kinematics -/

/-- C6: the spec's height law `jumpHeightMult * 4 * t * (1 - t)` does not hold
in `movement.rs`: `jump_height` is `4 * t * (1 - t)` with no multiplier, even
though `sheep` (sheep.rs) derives `jump_height_mult = 6` under `MoonGravity`
for the controller.  At the failing input — an airborne actor with
`hopSrc=(0,0)`, `hopDest=(4,0)` at fraction `t = 1/2` — the integrator places
it at `(2, 0)` with height `1`, not the claimed `6 * 4 * t * (1-t) = 6`; the
mult-free parts of the claim (lerped position, height 1 at `t = 1/2` for
mult 1, height 0 at `t = 1`) do hold. -/
theorem hop_kinematics_no_height_multiplier :
    (sheepHopParams true false).jump_height_mult = 6 ∧
    (applyHopMovement levelBounds 0
        { HopMovementController.default with
            airborne := true,
            current_hop_src := some ⟨0, 0⟩,
            current_hop_dest := some ⟨4, 0⟩,
            intent := ⟨4, 0⟩,
            hop_time_length := 3/10,
            timer := ⟨3/10, 3/20, false, false⟩ } ⟨0, 0, 0⟩).2 = ⟨2, 1, 0⟩ ∧
    jumpHeight (1/2) = 1 ∧
    jumpHeight 1 = 0 ∧
    specAirborneHeight ((sheepHopParams true false).jump_height_mult) (1/2) = 6 ∧
    jumpHeight (1/2) ≠
      specAirborneHeight ((sheepHopParams true false).jump_height_mult) (1/2) := by
  norm_num [sheepHopParams, applyHopMovement, HopMovementController.update,
    HopMovementController.default, Timer.tick, Timer.fraction, Timer.setDuration,
    Timer.reset, Timer.fromSeconds, Bounds.clampToBounds, clampNum, levelBounds,
    lerp, jumpHeight, specAirborneHeight, V3.xz, V2.distSq, V2.lengthSq,
    V2.sub_def, min_def, max_def]

/-! ## C10 — airborne/endpoint alignment -/

/-- C10 is false as stated: landing clears `airborne` but not the endpoint
options.  Starting from the default controller with a far intent, a first
update (0.5s) starts a hop, and a second update (0.3s) finishes it: the
controller is grounded yet both `current_hop_src` and `current_hop_dest` are
still set, refuting `airborne == true` iff both endpoints are set. -/
theorem airborne_iff_endpoints_counterexample :
    (((HopMovementController.default.withIntent ⟨5, 5⟩).update (1/2) ⟨0, 0⟩).1.airborne
        = true) ∧
    ((((HopMovementController.default.withIntent ⟨5, 5⟩).update (1/2) ⟨0, 0⟩).1.update
        (3/10) ⟨0, 0⟩).1.airborne = false) ∧
    ((((HopMovementController.default.withIntent ⟨5, 5⟩).update (1/2) ⟨0, 0⟩).1.update
        (3/10) ⟨0, 0⟩).1.current_hop_src.isSome = true) ∧
    ((((HopMovementController.default.withIntent ⟨5, 5⟩).update (1/2) ⟨0, 0⟩).1.update
        (3/10) ⟨0, 0⟩).1.current_hop_dest.isSome = true) := by
  norm_num [HopMovementController.update, HopMovementController.default,
    HopMovementController.withIntent, Timer.tick, Timer.setDuration, Timer.reset,
    Timer.fromSeconds, V2.distSq, V2.lengthSq, V2.sub_def]

/-! ## C1 — per-color goal scoring -/

/-- C1: resolving a creature at the goal yields, independently of the round
state and counters (hence of the order other creatures are scored in):
`+1` point and unchanged money for White with no charms owned, `+5` points for
Blue, `+1` money and unchanged points for Gold, and
`points := floor(points * 1.5)` for Red. -/
theorem goal_scoring_per_color (s : GameState) (st : RoundStats) :
    (s.charms = [] →
      (sheepGoalScore s st SheepColor.White).state.points = s.points + 1 ∧
      (sheepGoalScore s st SheepColor.White).state.money = s.money) ∧
    (sheepGoalScore s st SheepColor.Blue).state.points = s.points + 5 ∧
    (sheepGoalScore s st SheepColor.Blue).state.money = s.money ∧
    (sheepGoalScore s st SheepColor.Gold).state.money = s.money + 1 ∧
    (sheepGoalScore s st SheepColor.Gold).state.points = s.points ∧
    (sheepGoalScore s st SheepColor.Red).state.points = floorPointsTimes15 s.points := by
  unfold sheepGoalScore
  constructor
  · intro hc
    simp [GameState.isCharmActive, hc]
  · by_cases h1 : st.sheep_counted = 0 <;>
      by_cases hcl : s.isCharmActive Charm.Cloning = true <;>
      by_cases hrg : s.isCharmActive Charm.RedToGold = true <;>
      simp_all [GameState.isCharmActive]

/-- Witness for C1 at the default (charm-free) state. -/
theorem goal_scoring_per_color_witness :
    ((sheepGoalScore GameState.default RoundStats.default SheepColor.White).state.points =
        GameState.default.points + 1 ∧
      (sheepGoalScore GameState.default RoundStats.default SheepColor.White).state.money =
        GameState.default.money) ∧
    (sheepGoalScore GameState.default RoundStats.default SheepColor.Blue).state.points =
      GameState.default.points + 5 ∧
    (sheepGoalScore GameState.default RoundStats.default SheepColor.Blue).state.money =
      GameState.default.money ∧
    (sheepGoalScore GameState.default RoundStats.default SheepColor.Gold).state.money =
      GameState.default.money + 1 ∧
    (sheepGoalScore GameState.default RoundStats.default SheepColor.Gold).state.points =
      GameState.default.points ∧
    (sheepGoalScore GameState.default RoundStats.default SheepColor.Red).state.points =
      floorPointsTimes15 GameState.default.points :=
  let h := goal_scoring_per_color GameState.default RoundStats.default
  ⟨h.1 rfl, h.2⟩

/-! ## C2 — evolution counter -/

/-- C2 (amended): with the evolution charm active, a scored White creature
yields no points, advances the white-sheep counter by one, and permanently
adds a Blue unit exactly when the advanced counter is a multiple of 5 — but
the counter lives in `RoundStats` and is therefore reset at every round
boundary by `on_herding`, so it counts white sheep per round, not per run. -/
theorem evolution_scores_and_reclassifies (s : GameState) (st : RoundStats)
    (hev : s.isCharmActive Charm.Evolution = true) :
    (sheepGoalScore s st SheepColor.White).state.points = s.points ∧
    (sheepGoalScore s st SheepColor.White).stats.white_sheep_counted =
      st.white_sheep_counted + 1 ∧
    (sheepGoalScore s st SheepColor.White).state.blue_sheep_count =
      s.blue_sheep_count + (if (st.white_sheep_counted + 1) % 5 = 0 then 1 else 0) ∧
    (sheepGoalScore s st SheepColor.White).stats.sheep_counted = st.sheep_counted + 1 ∧
    onHerdingResetStats st = RoundStats.default := by
  unfold sheepGoalScore
  by_cases h5 : (st.white_sheep_counted + 1) % 5 = 0 <;>
    by_cases h1 : st.sheep_counted = 0 <;>
    by_cases hcl : s.isCharmActive Charm.Cloning = true <;>
    simp_all [GameState.isCharmActive, onHerdingResetStats, RoundStats.default]

/-- Witness for C2: with evolution owned and 4 whites already counted this
round, the 5th White scores 0 and reclassifies exactly one unit to Blue. -/
theorem evolution_scores_and_reclassifies_witness :
    ({ GameState.default with charms := [Charm.Evolution] } :
        GameState).isCharmActive Charm.Evolution = true ∧
    ((sheepGoalScore { GameState.default with charms := [Charm.Evolution] } ⟨4, 4, 0⟩
        SheepColor.White).state.points =
      ({ GameState.default with charms := [Charm.Evolution] } : GameState).points ∧
    (sheepGoalScore { GameState.default with charms := [Charm.Evolution] } ⟨4, 4, 0⟩
        SheepColor.White).stats.white_sheep_counted = 4 + 1 ∧
    (sheepGoalScore { GameState.default with charms := [Charm.Evolution] } ⟨4, 4, 0⟩
        SheepColor.White).state.blue_sheep_count =
      ({ GameState.default with charms := [Charm.Evolution] } : GameState).blue_sheep_count +
        (if (4 + 1) % 5 = 0 then 1 else 0) ∧
    (sheepGoalScore { GameState.default with charms := [Charm.Evolution] } ⟨4, 4, 0⟩
        SheepColor.White).stats.sheep_counted = 4 + 1 ∧
    onHerdingResetStats ⟨4, 4, 0⟩ = RoundStats.default) :=
  ⟨by decide,
    evolution_scores_and_reclassifies
      { GameState.default with charms := [Charm.Evolution] } ⟨4, 4, 0⟩ (by decide)⟩

/-- C2 is false as stated: the white-sheep counter does not persist across
rounds.  With 4 whites counted when the round ends, `on_herding` resets the
counter to 0, so the white creature scored next (the 5th of the run) leaves
the blue tally unchanged and the counter at 1 — the claimed run-persistent
counter would have triggered a reclassification here. -/
theorem evolution_counter_reset_each_round :
    (onHerdingResetStats ⟨4, 4, 0⟩).white_sheep_counted = 0 ∧
    (sheepGoalScore { GameState.default with charms := [Charm.Evolution] }
        (onHerdingResetStats ⟨4, 4, 0⟩) SheepColor.White).stats.white_sheep_counted = 1 ∧
    (sheepGoalScore { GameState.default with charms := [Charm.Evolution] }
        (onHerdingResetStats ⟨4, 4, 0⟩) SheepColor.White).state.blue_sheep_count =
      ({ GameState.default with charms := [Charm.Evolution] } :
        GameState).blue_sheep_count := by
  decide

/-! ## C4 — round advance -/

theorem pickRandomModifiersAux_sound (active : List Modifier) (count : ℕ)
    (stream : ℕ → Modifier) :
    ∀ (fuel attempts : ℕ) (choices : List Modifier),
      choices.Nodup → (∀ m ∈ choices, m ∉ active) → choices.length ≤ count →
      (pickRandomModifiersAux active count stream fuel attempts choices).Nodup ∧
      (∀ m ∈ pickRandomModifiersAux active count stream fuel attempts choices,
        m ∉ active) ∧
      (pickRandomModifiersAux active count stream fuel attempts choices).length ≤ count := by
  intro fuel
  induction fuel with
  | zero => exact fun attempts choices h1 h2 h3 => ⟨h1, h2, h3⟩
  | succ n ih =>
    intro attempts choices h1 h2 h3
    rw [pickRandomModifiersAux]
    split
    · rename_i hlen
      split
      · exact ih _ _ h1 h2 h3
      · rename_i hcon
        push_neg at hcon
        apply ih
        · simp [List.nodup_append, h1, hcon.2]
        · intro x hx
          rcases List.mem_append.mp hx with h | h
          · exact h2 x h
          · rw [List.mem_singleton] at h
            subst h
            exact hcon.1
        · rw [List.length_append, List.length_singleton]
          omega
    · exact ⟨h1, h2, h3⟩

/-- C4 (amended): a round advance raises the point target by
`2 + floor(pointTarget/10)`; when more than 2 modifiers are active exactly the
oldest (index 0) is evicted and no other, otherwise none is; the drawn
candidates are pairwise distinct, none is currently active, and there are at
most 2 of them (the 100-attempt draw loop may come up short on an adversarial
random stream); and starting from at most 3 active modifiers, the advance
plus the player's single choice never exceed 3 active modifiers. -/
theorem new_round_resolution (s : GameState) (stream : ℕ → Modifier) :
    (s.newRound stream).1.point_target = s.point_target + (2 + s.point_target / 10) ∧
    (2 < s.active_modifiers.length →
      (s.newRound stream).2.removed_modifier = s.active_modifiers.head? ∧
      (s.newRound stream).1.active_modifiers = s.active_modifiers.tail) ∧
    (s.active_modifiers.length ≤ 2 →
      (s.newRound stream).2.removed_modifier = none ∧
      (s.newRound stream).1.active_modifiers = s.active_modifiers) ∧
    (s.newRound stream).2.modifier_choices.Nodup ∧
    (∀ m ∈ (s.newRound stream).2.modifier_choices,
      m ∉ (s.newRound stream).1.active_modifiers) ∧
    (s.newRound stream).2.modifier_choices.length ≤ 2 ∧
    (s.active_modifiers.length ≤ 3 → ∀ m : Modifier,
      (chooseModifier (s.newRound stream).1 m).active_modifiers.length ≤ 3) := by
  by_cases h2 : 2 < s.active_modifiers.length
  · have heq : s.newRound stream =
        ({ s with completed_rounds := s.completed_rounds + 1, points := 0,
                  point_target := s.point_target + (2 + s.point_target / 10),
                  active_modifiers := s.active_modifiers.tail },
         ⟨s.active_modifiers.head?, pickRandomModifiers s.active_modifiers.tail 2 stream⟩) := by
      simp [GameState.newRound, h2]
    obtain ⟨hnd, hnm, hlen2⟩ := pickRandomModifiersAux_sound s.active_modifiers.tail
      2 stream 100 0 [] List.nodup_nil (by simp) (by simp)
    rw [heq]
    refine ⟨rfl, fun _ => ⟨rfl, rfl⟩, fun hle => absurd h2 (by omega), hnd, hnm, hlen2,
      fun hlen m => ?_⟩
    simp only [chooseModifier, List.length_append, List.length_singleton, List.length_tail]
    omega
  · have heq : s.newRound stream =
        ({ s with completed_rounds := s.completed_rounds + 1, points := 0,
                  point_target := s.point_target + (2 + s.point_target / 10) },
         ⟨none, pickRandomModifiers s.active_modifiers 2 stream⟩) := by
      simp [GameState.newRound, h2]
    obtain ⟨hnd, hnm, hlen2⟩ := pickRandomModifiersAux_sound s.active_modifiers
      2 stream 100 0 [] List.nodup_nil (by simp) (by simp)
    rw [heq]
    refine ⟨rfl, fun hgt => absurd hgt h2, fun _ => ⟨rfl, rfl⟩, hnd, hnm, hlen2,
      fun hlen m => ?_⟩
    simp only [chooseModifier, List.length_append, List.length_singleton]
    omega

/-- Witness for C4 with three active modifiers and a round-robin stream. -/
theorem new_round_resolution_witness :
    (2 < ([Modifier.Ufo, Modifier.Night, Modifier.Space] : List Modifier).length →
      ({ GameState.default with
          active_modifiers := [Modifier.Ufo, Modifier.Night, Modifier.Space] }.newRound
            (fun _ => Modifier.HyperSheep)).2.removed_modifier =
        ([Modifier.Ufo, Modifier.Night, Modifier.Space] : List Modifier).head? ∧
      ({ GameState.default with
          active_modifiers := [Modifier.Ufo, Modifier.Night, Modifier.Space] }.newRound
            (fun _ => Modifier.HyperSheep)).1.active_modifiers =
        ([Modifier.Ufo, Modifier.Night, Modifier.Space] : List Modifier).tail) ∧
    (([Modifier.Ufo, Modifier.Night, Modifier.Space] : List Modifier).length ≤ 3 →
      ∀ m : Modifier,
        (chooseModifier ({ GameState.default with
            active_modifiers := [Modifier.Ufo, Modifier.Night, Modifier.Space] }.newRound
              (fun _ => Modifier.HyperSheep)).1 m).active_modifiers.length ≤ 3) :=
  let h := new_round_resolution
    { GameState.default with
        active_modifiers := [Modifier.Ufo, Modifier.Night, Modifier.Space] }
    (fun _ => Modifier.HyperSheep)
  ⟨h.2.1, h.2.2.2.2.2.2⟩

/-- C4 is false as stated on the "exactly 2 candidates" clause: with
`HyperSheep` active and a random stream that always draws `HyperSheep`, all
100 attempts are rejected and no candidate at all is offered. -/
theorem new_round_can_offer_fewer_choices :
    ({ GameState.default with active_modifiers := [Modifier.HyperSheep] }.newRound
        (fun _ => Modifier.HyperSheep)).2.modifier_choices = [] ∧
    ({ GameState.default with active_modifiers := [Modifier.HyperSheep] }.newRound
        (fun _ => Modifier.HyperSheep)).2.modifier_choices.length ≠ 2 := by
  decide

/-! ## Integrator case analysis -/

theorem update_cases (c : HopMovementController) (dt : ℚ) (pos : V2 ℚ) :
    (c.update dt pos).1.intent = c.intent ∧
    (c.update dt pos).1.time_between_hops = c.time_between_hops ∧
    (c.update dt pos).1.hop_time_length = c.hop_time_length ∧
    (c.update dt pos).1.hop_speed_mult = c.hop_speed_mult ∧
    (((c.update dt pos).1.airborne = c.airborne ∧
        (c.update dt pos).1.current_hop_src = c.current_hop_src ∧
        (c.update dt pos).1.current_hop_dest = c.current_hop_dest ∧
        (c.update dt pos).1.timer = c.timer.tick (dt * c.hop_speed_mult)) ∨
      (c.airborne = true ∧ (c.update dt pos).1.airborne = false ∧
        (c.update dt pos).1.current_hop_src = c.current_hop_src ∧
        (c.update dt pos).1.current_hop_dest = c.current_hop_dest ∧
        (c.update dt pos).1.timer =
          ((c.timer.tick (dt * c.hop_speed_mult)).setDuration c.time_between_hops).reset) ∨
      (c.airborne = false ∧ (c.update dt pos).1.airborne = true ∧
        (c.update dt pos).1.current_hop_src = some pos ∧
        (c.update dt pos).1.current_hop_dest = some c.intent ∧
        (c.update dt pos).1.timer =
          ((c.timer.tick (dt * c.hop_speed_mult)).setDuration c.hop_time_length).reset)) := by
  unfold HopMovementController.update
  dsimp only
  by_cases hf : (c.timer.tick (dt * c.hop_speed_mult)).finished = true
  · rw [if_pos hf]
    cases hab : c.airborne
    · rw [if_neg Bool.false_ne_true]
      by_cases hd : 2/5 < c.intent.distSq pos
      · rw [if_pos hd]
        exact ⟨rfl, rfl, rfl, rfl, Or.inr (Or.inr ⟨rfl, rfl, rfl, rfl, rfl⟩)⟩
      · rw [if_neg hd]
        exact ⟨rfl, rfl, rfl, rfl, Or.inl ⟨rfl, rfl, rfl, rfl⟩⟩
    · rw [if_pos rfl]
      exact ⟨rfl, rfl, rfl, rfl, Or.inr (Or.inl ⟨rfl, rfl, rfl, rfl, rfl⟩)⟩
  · rw [if_neg hf]
    exact ⟨rfl, rfl, rfl, rfl, Or.inl ⟨rfl, rfl, rfl, rfl⟩⟩

theorem endpointsAligned_update (c : HopMovementController) (dt : ℚ) (pos : V2 ℚ)
    (h : endpointsAligned c) : endpointsAligned (c.update dt pos).1 := by
  obtain ⟨-, -, -, -, hcase⟩ := update_cases c dt pos
  rcases hcase with ⟨ha, hs, hd, -⟩ | ⟨hab, ha, hs, hd, -⟩ | ⟨hab, ha, hs, hd, -⟩
  · exact ⟨fun hb => by rw [hs, hd]; exact h.1 (ha.symm.trans hb), by rw [hs, hd]; exact h.2⟩
  · refine ⟨fun hb => absurd (ha.symm.trans hb) (by simp), ?_⟩
    rw [hs, hd]
    exact h.2
  · constructor
    · intro hb
      rw [hs, hd]
      exact ⟨rfl, rfl⟩
    · rw [hs, hd]
      rfl

/-! ## C10 — hop endpoints -/

/-- C10 (amended): after every integrator step (both the controller update and
the full `apply_hop_movement` pass), an airborne actor has both hop endpoints
set, and the two endpoints are always both set or both cleared together (as
they are on the default controller); the claimed iff fails in the other
direction, since landing clears only the airborne flag. -/
theorem hop_endpoints_together (c : HopMovementController) (dt : ℚ) (pos : V2 ℚ)
    (b : Bounds ℚ) (p : V3) (h : endpointsAligned c) :
    endpointsAligned (c.update dt pos).1 ∧
    endpointsAligned (applyHopMovement b dt c p).1 ∧
    endpointsAligned HopMovementController.default :=
  ⟨endpointsAligned_update c dt pos h,
    endpointsAligned_update { c with intent := b.clampToBounds c.intent } dt p.xz h,
    ⟨fun hb => (Bool.false_ne_true hb).elim, rfl⟩⟩

/-- Witness for C10 on the default controller. -/
theorem hop_endpoints_together_witness :
    endpointsAligned (HopMovementController.default.update 1 ⟨0, 0⟩).1 ∧
    endpointsAligned
      (applyHopMovement levelBounds 1 HopMovementController.default ⟨0, 0, 0⟩).1 ∧
    endpointsAligned HopMovementController.default :=
  hop_endpoints_together HopMovementController.default 1 ⟨0, 0⟩ levelBounds ⟨0, 0, 0⟩
    ⟨fun hb => (Bool.false_ne_true hb).elim, rfl⟩

/-! ## C3 — bounds invariant -/

theorem lerpPos_inBounds (b : Bounds ℚ) (hbx : b.min.x ≤ b.max.x)
    (hby : b.min.y ≤ b.max.y) (src dest : V2 ℚ) (hsrc : inBounds b src) (t : ℚ)
    (ht0 : 0 ≤ t) (ht1 : t ≤ 1) :
    inBounds b ⟨lerp src.x (b.clampToBounds dest).x t,
      lerp src.y (b.clampToBounds dest).y t⟩ := by
  obtain ⟨d1, d2, d3, d4⟩ := clampToBounds_mem b dest hbx hby
  obtain ⟨s1, s2, s3, s4⟩ := hsrc
  obtain ⟨hx1, hx2⟩ := lerp_mem s1 s2 d1 d2 ht0 ht1
  obtain ⟨hy1, hy2⟩ := lerp_mem s3 s4 d3 d4 ht0 ht1
  exact ⟨hx1, hx2, hy1, hy2⟩

theorem applyHopMovement_preserves (b : Bounds ℚ) (hbx : b.min.x ≤ b.max.x)
    (hby : b.min.y ≤ b.max.y) (dt : ℚ) (hdt : 0 ≤ dt) (c : HopMovementController)
    (p : V3) (hwf : hopWf c) (hinv : hopInv b c p) :
    hopWf (applyHopMovement b dt c p).1 ∧
    hopInv b (applyHopMovement b dt c p).1 (applyHopMovement b dt c p).2 := by
  obtain ⟨hTw, hTb, hTh, hTs⟩ := hwf
  obtain ⟨hp, hair⟩ := hinv
  unfold applyHopMovement
  dsimp only
  obtain ⟨hint, htb, hth, hsm, hcase⟩ :=
    update_cases { c with intent := b.clampToBounds c.intent } dt p.xz
  set r := ({ c with intent := b.clampToBounds c.intent } :
    HopMovementController).update dt p.xz with hrdef
  have htickwf : (c.timer.tick (dt * c.hop_speed_mult)).Wf :=
    Timer.tick_wf hTw (mul_nonneg hdt hTs)
  rcases hcase with ⟨ha, hs, hd, ht⟩ | ⟨hab, ha, hs, hd, ht⟩ | ⟨hab, ha, hs, hd, ht⟩
  · -- no phase transition: airborne flag and endpoints unchanged
    refine ⟨⟨by rw [ht]; exact htickwf, by rw [htb]; exact hTb, by rw [hth]; exact hTh,
      by rw [hsm]; exact hTs⟩, ?_⟩
    by_cases hca : c.airborne = true
    · obtain ⟨src, dest, hsrc, hdest, hsb⟩ := hair hca
      have ha2 : r.1.airborne = true := by rw [ha]; exact hca
      have hs2 : r.1.current_hop_src = some src := by rw [hs]; exact hsrc
      have hd2 : r.1.current_hop_dest = some dest := by rw [hd]; exact hdest
      have hfr := Timer.fraction_mem (t := r.1.timer) (by rw [ht]; exact htickwf)
      rw [if_pos ha2, hs2, hd2]
      dsimp only
      exact ⟨lerpPos_inBounds b hbx hby src dest hsb _ hfr.1 hfr.2,
        fun hb => ⟨src, dest, hs2, hd2, hsb⟩⟩
    · have hca2 : c.airborne = false := by rwa [Bool.not_eq_true] at hca
      have ha2 : r.1.airborne = false := by rw [ha]; exact hca2
      rw [if_neg (fun hb => Bool.false_ne_true (ha2.symm.trans hb))]
      exact ⟨hp, fun hb => absurd (ha2.symm.trans hb) (by simp)⟩
  · -- landing: airborne cleared, position untouched
    refine ⟨⟨by rw [ht]; exact Timer.reset_wf hTb, by rw [htb]; exact hTb,
      by rw [hth]; exact hTh, by rw [hsm]; exact hTs⟩, ?_⟩
    rw [if_neg (fun hb => Bool.false_ne_true (ha.symm.trans hb))]
    exact ⟨hp, fun hb => absurd (ha.symm.trans hb) (by simp)⟩
  · -- hop start: fresh endpoints from the in-bounds position and clamped intent
    refine ⟨⟨by rw [ht]; exact Timer.reset_wf hTh, by rw [htb]; exact hTb,
      by rw [hth]; exact hTh, by rw [hsm]; exact hTs⟩, ?_⟩
    have hfr := Timer.fraction_mem (t := r.1.timer) (by rw [ht]; exact Timer.reset_wf hTh)
    rw [if_pos ha, hs, hd]
    dsimp only
    exact ⟨lerpPos_inBounds b hbx hby p.xz _ hp _ hfr.1 hfr.2,
      fun hb => ⟨p.xz, _, hs, hd, hp⟩⟩

theorem applyHopMovementRun_preserves (b : Bounds ℚ) (hbx : b.min.x ≤ b.max.x)
    (hby : b.min.y ≤ b.max.y) :
    ∀ (dts : List ℚ) (c : HopMovementController) (p : V3),
      (∀ dt ∈ dts, 0 ≤ dt) → hopWf c → hopInv b c p →
      hopWf (applyHopMovementRun b dts c p).1 ∧
      hopInv b (applyHopMovementRun b dts c p).1 (applyHopMovementRun b dts c p).2 := by
  intro dts
  induction dts with
  | nil => exact fun c p _ hwf hinv => ⟨hwf, hinv⟩
  | cons dt rest ih =>
    intro c p hdts hwf hinv
    rw [applyHopMovementRun]
    obtain ⟨hwf2, hinv2⟩ :=
      applyHopMovement_preserves b hbx hby dt (hdts dt (by simp)) c p hwf hinv
    exact ih _ _ (fun d hd => hdts d (List.mem_cons_of_mem dt hd)) hwf2 hinv2

/-- C3: starting from an in-bounds spawn position (and a well-formed idle or
in-flight controller), the planar position produced by the hop integrator
stays within the bounds rectangle at every tick; separately, the wander
intents computed by `sheep_wander` are clamped to bounds before use.  The
in-flight part holds because hop destinations are clamped and the airborne
interpolation between the in-bounds hop source and the clamped destination
stays in bounds. -/
theorem creature_position_stays_in_bounds (b : Bounds ℚ) (hbx : b.min.x ≤ b.max.x)
    (hby : b.min.y ≤ b.max.y) :
    (∀ pos dir stepDistance, inBounds b (wanderTarget b pos dir stepDistance)) ∧
    (∀ (dts : List ℚ) (c : HopMovementController) (p : V3),
      (∀ dt ∈ dts, 0 ≤ dt) → hopWf c → hopInv b c p →
      inBounds b (applyHopMovementRun b dts c p).2.xz ∧
      hopInv b (applyHopMovementRun b dts c p).1 (applyHopMovementRun b dts c p).2) := by
  constructor
  · exact fun pos dir stepDistance => clampToBounds_mem b _ hbx hby
  · intro dts c p hdts hwf hinv
    obtain ⟨-, hi⟩ := applyHopMovementRun_preserves b hbx hby dts c p hdts hwf hinv
    exact ⟨hi.1, hi⟩

/-- Witness for C3: two ticks of the default controller from the origin under
the level bounds, plus one wander target. -/
theorem creature_position_stays_in_bounds_witness :
    inBounds levelBounds (wanderTarget levelBounds ⟨0, 0⟩ ⟨1, 0⟩ (3/2)) ∧
    inBounds levelBounds
      (applyHopMovementRun levelBounds [1/2, 3/10]
        HopMovementController.default ⟨0, 0, 0⟩).2.xz := by
  have h := creature_position_stays_in_bounds levelBounds
    (by norm_num [levelBounds]) (by norm_num [levelBounds])
  refine ⟨h.1 ⟨0, 0⟩ ⟨1, 0⟩ (3/2),
    (h.2 [1/2, 3/10] HopMovementController.default ⟨0, 0, 0⟩ ?_ ?_ ?_).1⟩
  · intro dt hdt
    rcases List.mem_cons.mp hdt with h1 | h1
    · rw [h1]; norm_num
    · rw [List.mem_singleton] at h1
      rw [h1]; norm_num
  · refine ⟨⟨le_refl 0, ?_⟩, ?_, ?_, ?_⟩ <;>
      norm_num [HopMovementController.default, Timer.fromSeconds]
  · refine ⟨?_, fun hb => (Bool.false_ne_true hb).elim⟩
    norm_num [inBounds, levelBounds, V3.xz]

/-! ## C8 — corner-avoidance policy -/

theorem V2.lengthSq_perp {a : Type} [CommRing a] (v : V2 a) :
    v.perp.lengthSq = v.lengthSq := by
  simp only [V2.perp, V2.lengthSq]
  ring

theorem V2.lengthSq_neg {a : Type} [CommRing a] (v : V2 a) :
    (-v).lengthSq = v.lengthSq := by
  simp only [V2.neg_def, V2.lengthSq]
  ring

theorem V2.distSq_add_cancel {a : Type} [CommRing a] (pos d : V2 a) :
    (pos + d).distSq pos = d.lengthSq := by
  simp only [V2.distSq, V2.lengthSq, V2.sub_def, V2.add_def]
  ring_nf

theorem clampNum_sq_le {x lo hi q : ℝ} (h1 : lo ≤ x) (h2 : x ≤ hi) :
    (clampNum q lo hi - x) * (clampNum q lo hi - x) ≤ (q - x) * (q - x) := by
  unfold clampNum
  rcases le_total q lo with h | h
  · rw [max_eq_right h, min_eq_left (le_trans h1 h2)]
    nlinarith
  · rw [max_eq_left h]
    rcases le_total q hi with h3 | h3
    · rw [min_eq_left h3]
    · rw [min_eq_right h3]
      nlinarith

theorem evasionScore_le_lengthSq (b : Bounds ℝ) (pos d : V2 ℝ)
    (hpos : inBounds b pos) : evasionScore b pos d ≤ d.lengthSq := by
  obtain ⟨h1, h2, h3, h4⟩ := hpos
  have hx := clampNum_sq_le (q := pos.x + d.x) h1 h2
  have hy := clampNum_sq_le (q := pos.y + d.y) h3 h4
  simp only [evasionScore, Bounds.clampToBounds, V2.distSq, V2.lengthSq, V2.sub_def,
    V2.add_def] at *
  nlinarith [hx, hy]

theorem evasionFold_spec (b : Bounds ℝ) (pos : V2 ℝ) :
    ∀ (l : List (V2 ℝ)) (acc : V2 ℝ × ℝ), acc.2 = evasionScore b pos acc.1 →
      ((l.foldl (fun acc dir =>
          if acc.2 < (b.clampToBounds (pos + dir)).distSq pos
          then (dir, (b.clampToBounds (pos + dir)).distSq pos) else acc) acc).2 =
        evasionScore b pos (l.foldl (fun acc dir =>
          if acc.2 < (b.clampToBounds (pos + dir)).distSq pos
          then (dir, (b.clampToBounds (pos + dir)).distSq pos) else acc) acc).1) ∧
      ((l.foldl (fun acc dir =>
          if acc.2 < (b.clampToBounds (pos + dir)).distSq pos
          then (dir, (b.clampToBounds (pos + dir)).distSq pos) else acc) acc).1 = acc.1 ∨
        (l.foldl (fun acc dir =>
          if acc.2 < (b.clampToBounds (pos + dir)).distSq pos
          then (dir, (b.clampToBounds (pos + dir)).distSq pos) else acc) acc).1 ∈ l) ∧
      acc.2 ≤ (l.foldl (fun acc dir =>
          if acc.2 < (b.clampToBounds (pos + dir)).distSq pos
          then (dir, (b.clampToBounds (pos + dir)).distSq pos) else acc) acc).2 ∧
      (∀ d ∈ l, evasionScore b pos d ≤ (l.foldl (fun acc dir =>
          if acc.2 < (b.clampToBounds (pos + dir)).distSq pos
          then (dir, (b.clampToBounds (pos + dir)).distSq pos) else acc) acc).2) := by
  intro l
  induction l with
  | nil => exact fun acc hacc => ⟨hacc, Or.inl rfl, le_refl _, fun d hd => absurd hd (by simp)⟩
  | cons a rest ih =>
    intro acc hacc
    rw [List.foldl_cons]
    by_cases hlt : acc.2 < (b.clampToBounds (pos + a)).distSq pos
    · rw [if_pos hlt]
      obtain ⟨k1, k2, k3, k4⟩ := ih ((a, (b.clampToBounds (pos + a)).distSq pos)) rfl
      refine ⟨k1, ?_, le_trans (le_of_lt hlt) k3, ?_⟩
      · rcases k2 with h | h
        · exact Or.inr (by rw [h]; exact List.mem_cons_self a rest)
        · exact Or.inr (List.mem_cons_of_mem a h)
      · intro d hd
        rcases List.mem_cons.mp hd with h | h
        · rw [h]; exact k3
        · exact k4 d h
    · rw [if_neg hlt]
      obtain ⟨k1, k2, k3, k4⟩ := ih acc hacc
      refine ⟨k1, ?_, k3, ?_⟩
      · rcases k2 with h | h
        · exact Or.inl h
        · exact Or.inr (List.mem_cons_of_mem a h)
      · intro d hd
        rcases List.mem_cons.mp hd with h | h
        · rw [h]
          exact le_trans (le_of_not_lt hlt) k3
        · exact k4 d h

/-- C8 (amended): from an in-bounds position, the corner-avoidance policy
returns one of the four candidates (the preferred escape direction, its two
perpendiculars, its negation); the clamped displacement of every candidate is
at most that of the returned one; and when the preferred step is unobstructed
(its clamped target is itself) the preferred direction is returned.  In
particular at bounds `[(-10,-10),(10,10)]`, position `(9,9)`, preferred
direction `normalize(1,1)`, the preferred step is still in bounds, so —
contrary to the claim — the chosen direction is exactly the preferred one. -/
theorem evasion_policy (pos preferred : V2 ℝ) (b : Bounds ℝ) (hpos : inBounds b pos) :
    (b.clampToBounds (pos + preferred) = pos + preferred →
      pickEvasionDir pos preferred b = preferred) ∧
    (pickEvasionDir pos preferred b = preferred ∨
      pickEvasionDir pos preferred b = preferred.perp ∨
      pickEvasionDir pos preferred b = -preferred.perp ∨
      pickEvasionDir pos preferred b = -preferred) ∧
    (∀ d, (d = preferred ∨ d = preferred.perp ∨ d = -preferred.perp ∨ d = -preferred) →
      evasionScore b pos d ≤ evasionScore b pos (pickEvasionDir pos preferred b)) := by
  unfold pickEvasionDir
  dsimp only
  by_cases hun : b.clampToBounds (pos + preferred) = pos + preferred
  · rw [if_pos hun]
    refine ⟨fun _ => rfl, Or.inl rfl, fun d hd => ?_⟩
    have hpref : evasionScore b pos preferred = preferred.lengthSq := by
      rw [evasionScore, hun, V2.distSq_add_cancel]
    have hle := evasionScore_le_lengthSq b pos d hpos
    rcases hd with h | h | h | h
    · rw [h]
    · rw [h] at hle ⊢
      rw [V2.lengthSq_perp] at hle
      exact le_trans hle (le_of_eq hpref.symm)
    · rw [h] at hle ⊢
      rw [V2.lengthSq_neg, V2.lengthSq_perp] at hle
      exact le_trans hle (le_of_eq hpref.symm)
    · rw [h] at hle ⊢
      rw [V2.lengthSq_neg] at hle
      exact le_trans hle (le_of_eq hpref.symm)
  · rw [if_neg hun]
    obtain ⟨k1, k2, k3, k4⟩ := evasionFold_spec b pos
      [preferred.perp, -preferred.perp, -preferred]
      (preferred, (b.clampToBounds (pos + preferred)).distSq pos) rfl
    refine ⟨fun h => absurd h hun, ?_, fun d hd => ?_⟩
    · rcases k2 with h | h
      · exact Or.inl h
      · rcases List.mem_cons.mp h with h1 | h1
        · exact Or.inr (Or.inl h1)
        · rcases List.mem_cons.mp h1 with h2 | h2
          · exact Or.inr (Or.inr (Or.inl h2))
          · rw [List.mem_singleton] at h2
            exact Or.inr (Or.inr (Or.inr h2))
    · rw [← k1]
      rcases hd with h | h | h | h
      · rw [h]
        exact k3
      all_goals rw [h]
      · exact k4 _ (by simp)
      · exact k4 _ (by simp)
      · exact k4 _ (by simp)

/-- Witness for C8 at the origin with unit preferred direction. -/
theorem evasion_policy_witness :
    ((⟨⟨-10, -10⟩, ⟨10, 10⟩⟩ : Bounds ℝ).clampToBounds (⟨0, 0⟩ + ⟨1, 0⟩) =
        (⟨0, 0⟩ : V2 ℝ) + ⟨1, 0⟩ →
      pickEvasionDir ⟨0, 0⟩ ⟨1, 0⟩ ⟨⟨-10, -10⟩, ⟨10, 10⟩⟩ = ⟨1, 0⟩) ∧
    (pickEvasionDir (⟨0, 0⟩ : V2 ℝ) ⟨1, 0⟩ ⟨⟨-10, -10⟩, ⟨10, 10⟩⟩ = ⟨1, 0⟩ ∨
      pickEvasionDir (⟨0, 0⟩ : V2 ℝ) ⟨1, 0⟩ ⟨⟨-10, -10⟩, ⟨10, 10⟩⟩ =
        (⟨1, 0⟩ : V2 ℝ).perp ∨
      pickEvasionDir (⟨0, 0⟩ : V2 ℝ) ⟨1, 0⟩ ⟨⟨-10, -10⟩, ⟨10, 10⟩⟩ =
        -(⟨1, 0⟩ : V2 ℝ).perp ∨
      pickEvasionDir (⟨0, 0⟩ : V2 ℝ) ⟨1, 0⟩ ⟨⟨-10, -10⟩, ⟨10, 10⟩⟩ = -⟨1, 0⟩) ∧
    (∀ d, (d = (⟨1, 0⟩ : V2 ℝ) ∨ d = (⟨1, 0⟩ : V2 ℝ).perp ∨
        d = -(⟨1, 0⟩ : V2 ℝ).perp ∨ d = -(⟨1, 0⟩ : V2 ℝ)) →
      evasionScore ⟨⟨-10, -10⟩, ⟨10, 10⟩⟩ ⟨0, 0⟩ d ≤
        evasionScore ⟨⟨-10, -10⟩, ⟨10, 10⟩⟩ ⟨0, 0⟩
          (pickEvasionDir ⟨0, 0⟩ ⟨1, 0⟩ ⟨⟨-10, -10⟩, ⟨10, 10⟩⟩)) :=
  evasion_policy ⟨0, 0⟩ ⟨1, 0⟩ ⟨⟨-10, -10⟩, ⟨10, 10⟩⟩ (by norm_num [inBounds])

/-- C8 is false as stated at the spec's own test point: at position `(9,9)`
with preferred direction `normalize(1,1)` and bounds `[(-10,-10),(10,10)]`,
the preferred step lands at `9 + 1/sqrt 2 < 10` in both coordinates, so it is
unobstructed and `pick_evasion_dir` returns exactly the preferred direction —
the claim demands the chosen direction not be the preferred one. -/
theorem corner_evasion_returns_preferred :
    pickEvasionDir ⟨9, 9⟩ ((⟨1, 1⟩ : V2 ℝ).normalizeOr ⟨1, 0⟩) ⟨⟨-10, -10⟩, ⟨10, 10⟩⟩ =
      (⟨1, 1⟩ : V2 ℝ).normalizeOr ⟨1, 0⟩ := by
  have hsqrt2 : (1 : ℝ) ≤ Real.sqrt 2 := by
    rw [show (1 : ℝ) = Real.sqrt 1 from Real.sqrt_one.symm]
    exact Real.sqrt_le_sqrt (by norm_num)
  have hpos2 : (0 : ℝ) < Real.sqrt 2 := lt_of_lt_of_le one_pos hsqrt2
  have hfrac0 : (0 : ℝ) ≤ 1 / Real.sqrt 2 := by positivity
  have hfrac1 : (1 : ℝ) / Real.sqrt 2 ≤ 1 := by
    rw [div_le_one hpos2]
    exact hsqrt2
  have hnorm : (⟨1, 1⟩ : V2 ℝ).normalizeOr ⟨1, 0⟩ =
      ⟨1 / Real.sqrt 2, 1 / Real.sqrt 2⟩ := by
    rw [V2.normalizeOr, if_neg (by simp)]
    simp [V2.scale, V2.length, V2.lengthSq]
    norm_num
  rw [hnorm]
  have hcl : (⟨⟨-10, -10⟩, ⟨10, 10⟩⟩ : Bounds ℝ).clampToBounds
      ((⟨9, 9⟩ : V2 ℝ) + ⟨1 / Real.sqrt 2, 1 / Real.sqrt 2⟩) =
      (⟨9, 9⟩ : V2 ℝ) + ⟨1 / Real.sqrt 2, 1 / Real.sqrt 2⟩ := by
    rw [V2.add_def, Bounds.clampToBounds]
    dsimp only
    rw [clampNum_eq_self (by linarith) (by linarith)]
  unfold pickEvasionDir
  dsimp only
  rw [if_pos hcl]

/-! ## C7 — flocking direction -/

theorem V2.zero_add (v : V2 ℝ) : (⟨0, 0⟩ : V2 ℝ) + v = v := by
  rw [V2.add_def]
  simp

theorem V2.add_zero (v : V2 ℝ) : v + (⟨0, 0⟩ : V2 ℝ) = v := by
  rw [V2.add_def]
  simp

theorem V2.add_assoc (u v w : V2 ℝ) : u + v + w = u + (v + w) := by
  simp only [V2.add_def]
  rw [V2.mk.injEq]
  constructor <;> ring

theorem herdNear_cons_pos {pos a : V2 ℝ} (rest : List (V2 ℝ))
    (h : (a - pos).lengthSq ≤ 100) :
    herdNear pos (a :: rest) = a :: herdNear pos rest := by
  simp [herdNear, List.filter_cons, h]

theorem herdNear_cons_neg {pos a : V2 ℝ} (rest : List (V2 ℝ))
    (h : ¬ (a - pos).lengthSq ≤ 100) :
    herdNear pos (a :: rest) = herdNear pos rest := by
  simp [herdNear, List.filter_cons, h]

theorem herdNear_nil_of_all {pos : V2 ℝ} {l : List (V2 ℝ)}
    (h : herdNear pos l = []) : ∀ o ∈ l, ¬ (o - pos).lengthSq ≤ 100 := by
  intro o ho
  have := List.filter_eq_nil_iff.mp h o ho
  simpa using this

theorem herdScanStep_rejected {pos o : V2 ℝ} (acc : HerdScan)
    (h : ¬ (o - pos).lengthSq ≤ 100) : herdScanStep pos acc o = acc := by
  simp only [herdScanStep]
  rw [if_pos (lt_of_not_le h)]

theorem herdScanStep_accepted {pos o : V2 ℝ} (acc : HerdScan)
    (h : (o - pos).lengthSq ≤ 100) :
    herdScanStep pos acc o =
      ⟨acc.center + o, acc.nearbyCount + 1,
        acc.separation + sepContribution pos o, acc.sampled + 1⟩ := by
  simp only [herdScanStep, sepContribution]
  rw [if_neg (not_lt.mpr h)]
  by_cases h2 : 0 < (o - pos).lengthSq ∧ (o - pos).lengthSq < 144/25
  · rw [if_pos h2, if_pos h2]
  · rw [if_neg h2, if_neg h2, V2.add_zero]

theorem foldl_herdScanStep_rejected (pos : V2 ℝ) :
    ∀ (l : List (V2 ℝ)) (acc : HerdScan),
      (∀ o ∈ l, ¬ (o - pos).lengthSq ≤ 100) →
      l.foldl (herdScanStep pos) acc = acc := by
  intro l
  induction l with
  | nil => exact fun acc _ => rfl
  | cons a rest ih =>
    intro acc h
    rw [List.foldl_cons, herdScanStep_rejected acc (h a (List.mem_cons_self a rest))]
    exact ih acc (fun o ho => h o (List.mem_cons_of_mem a ho))

theorem herdScan_eq_foldl (pos : V2 ℝ) :
    ∀ (l : List (V2 ℝ)) (acc : HerdScan),
      acc.sampled + (herdNear pos l).length ≤ 20 →
      herdScan pos l acc = l.foldl (herdScanStep pos) acc := by
  intro l
  induction l with
  | nil => exact fun acc _ => rfl
  | cons a rest ih =>
    intro acc hcap
    rw [show herdScan pos (a :: rest) acc =
        (if 20 ≤ (herdScanStep pos acc a).sampled then herdScanStep pos acc a
          else herdScan pos rest (herdScanStep pos acc a)) from rfl,
      List.foldl_cons]
    by_cases ha : (a - pos).lengthSq ≤ 100
    · have hstep := herdScanStep_accepted acc ha
      have hsampled : (herdScanStep pos acc a).sampled = acc.sampled + 1 := by
        rw [hstep]
      rw [herdNear_cons_pos rest ha, List.length_cons] at hcap
      by_cases hstop : 20 ≤ (herdScanStep pos acc a).sampled
      · rw [if_pos hstop]
        rw [hsampled] at hstop
        have hrest : (herdNear pos rest).length = 0 := by omega
        rw [foldl_herdScanStep_rejected pos rest _
          (herdNear_nil_of_all (List.length_eq_zero.mp hrest))]
      · rw [if_neg hstop]
        apply ih
        rw [hsampled]
        omega
    · have hstep := herdScanStep_rejected acc ha
      rw [herdNear_cons_neg rest ha] at hcap
      rw [hstep]
      by_cases hstop : 20 ≤ acc.sampled
      · rw [if_pos hstop]
        have hrest : (herdNear pos rest).length = 0 := by omega
        rw [foldl_herdScanStep_rejected pos rest _
          (herdNear_nil_of_all (List.length_eq_zero.mp hrest))]
      · rw [if_neg hstop]
        exact ih acc hcap

theorem foldl_addV_extract :
    ∀ (l : List (V2 ℝ)) (init : V2 ℝ),
      l.foldl (fun acc o => acc + o) init =
        init + l.foldl (fun acc o => acc + o) ⟨0, 0⟩ := by
  intro l
  induction l with
  | nil => exact fun init => (V2.add_zero init).symm
  | cons a rest ih =>
    intro init
    rw [List.foldl_cons, List.foldl_cons, ih (init + a), ih ((⟨0, 0⟩ : V2 ℝ) + a),
      V2.zero_add, V2.add_assoc]

theorem foldl_addSep_extract (pos : V2 ℝ) :
    ∀ (l : List (V2 ℝ)) (init : V2 ℝ),
      l.foldl (fun acc o => acc + sepContribution pos o) init =
        init + l.foldl (fun acc o => acc + sepContribution pos o) ⟨0, 0⟩ := by
  intro l
  induction l with
  | nil => exact fun init => (V2.add_zero init).symm
  | cons a rest ih =>
    intro init
    rw [List.foldl_cons, List.foldl_cons, ih (init + sepContribution pos a),
      ih ((⟨0, 0⟩ : V2 ℝ) + sepContribution pos a), V2.zero_add, V2.add_assoc]

theorem foldl_herdScanStep_spec (pos : V2 ℝ) :
    ∀ (l : List (V2 ℝ)) (acc : HerdScan),
      (l.foldl (herdScanStep pos) acc).center =
        acc.center + (herdNear pos l).foldl (fun a o => a + o) ⟨0, 0⟩ ∧
      (l.foldl (herdScanStep pos) acc).nearbyCount =
        acc.nearbyCount + ((herdNear pos l).length : ℝ) ∧
      (l.foldl (herdScanStep pos) acc).separation =
        acc.separation +
          (herdNear pos l).foldl (fun a o => a + sepContribution pos o) ⟨0, 0⟩ ∧
      (l.foldl (herdScanStep pos) acc).sampled =
        acc.sampled + (herdNear pos l).length := by
  intro l
  induction l with
  | nil =>
    intro acc
    refine ⟨?_, ?_, ?_, ?_⟩ <;> simp [herdNear, V2.add_zero]
  | cons a rest ih =>
    intro acc
    rw [List.foldl_cons]
    by_cases ha : (a - pos).lengthSq ≤ 100
    · rw [herdScanStep_accepted acc ha, herdNear_cons_pos rest ha]
      obtain ⟨k1, k2, k3, k4⟩ := ih ⟨acc.center + a, acc.nearbyCount + 1,
        acc.separation + sepContribution pos a, acc.sampled + 1⟩
      dsimp only at k1 k2 k3 k4
      refine ⟨?_, ?_, ?_, ?_⟩
      · rw [k1, List.foldl_cons, foldl_addV_extract (herdNear pos rest)
          ((⟨0, 0⟩ : V2 ℝ) + a), V2.zero_add, V2.add_assoc]
      · rw [k2, List.length_cons]
        push_cast
        ring
      · rw [k3, List.foldl_cons, foldl_addSep_extract pos (herdNear pos rest)
          ((⟨0, 0⟩ : V2 ℝ) + sepContribution pos a), V2.zero_add, V2.add_assoc]
      · rw [k4, List.length_cons]
        omega
    · obtain ⟨k1, k2, k3, k4⟩ := ih acc
      rw [herdScanStep_rejected acc ha, herdNear_cons_neg rest ha]
      exact ⟨k1, k2, k3, k4⟩

/-- C7 (amended): for a refreshed creature, when no scanned snapshot entry is
within the herd radius the herd direction is set to zero; when at least one
is (and at most 20, so the sample cap does not truncate), the written
direction is
`normalize(cohesionWeight * normalize(centroid/count - pos) +
separationWeight * normalize(pushVector))` — the source normalizes the
cohesion offset *before* weighting, where the claim uses the raw offset. -/
theorem herding_direction_formula (pos : V2 ℝ) (others : List (V2 ℝ))
    (hcap : (herdNear pos others).length ≤ 20) :
    (herdNear pos others = [] → herdDirUpdate pos others = ⟨0, 0⟩) ∧
    (herdNear pos others ≠ [] → herdDirUpdate pos others =
      (V2.scale (9/10) (V2.scale (1 / ((herdNear pos others).length : ℝ))
          (herdCentroidSum pos others) - pos).normalizeOrZero +
        V2.scale (3/2) (herdSeparationSum pos others).normalizeOrZero).normalizeOrZero) := by
  have hfold := herdScan_eq_foldl pos others herdScanInit (by simpa [herdScanInit] using hcap)
  obtain ⟨k1, k2, k3, k4⟩ := foldl_herdScanStep_spec pos others herdScanInit
  unfold herdDirUpdate
  dsimp only
  rw [hfold]
  have hcen : (others.foldl (herdScanStep pos) herdScanInit).center =
      herdCentroidSum pos others := by
    rw [k1]
    exact V2.zero_add _
  have hsep : (others.foldl (herdScanStep pos) herdScanInit).separation =
      herdSeparationSum pos others := by
    rw [k3]
    exact V2.zero_add _
  have hcnt : (others.foldl (herdScanStep pos) herdScanInit).nearbyCount =
      ((herdNear pos others).length : ℝ) := by
    rw [k2]
    simp [herdScanInit]
  constructor
  · intro hnil
    rw [if_pos (by rw [hcnt, hnil]; simp)]
  · intro hne
    have hlen : 0 < (herdNear pos others).length := List.length_pos.mpr hne
    rw [if_neg (by rw [hcnt]; exact not_le.mpr (Nat.cast_pos.mpr hlen))]
    rw [hcen, hsep, hcnt]

theorem V2.normalizeOr_axis (r : ℝ) (hr : r ≠ 0) (f : V2 ℝ) :
    (⟨r, 0⟩ : V2 ℝ).normalizeOr f = ⟨r / |r|, 0⟩ := by
  rw [V2.normalizeOr, if_neg (by simp [hr])]
  rw [V2.length, V2.lengthSq]
  dsimp only
  rw [show r * r + 0 * 0 = r * r by ring, Real.sqrt_mul_self_eq_abs]
  rw [V2.scale, V2.mk.injEq]
  constructor
  · rw [one_div, inv_mul_eq_div]
  · ring

theorem V2.normalizeOrZero_axis (r : ℝ) (hr : r ≠ 0) :
    (⟨r, 0⟩ : V2 ℝ).normalizeOrZero = ⟨r / |r|, 0⟩ := by
  rw [V2.normalizeOrZero, V2.normalizeOr_axis r hr]

theorem herdScan_single_neighbor :
    herdScan ⟨0, 0⟩ [⟨2, 0⟩] herdScanInit = ⟨⟨2, 0⟩, 1, ⟨-(1/6), 0⟩, 1⟩ := by
  have hd : ((⟨2, 0⟩ : V2 ℝ) - ⟨0, 0⟩).lengthSq = 4 := by
    rw [V2.sub_def, V2.lengthSq]
    norm_num
  have hsub : ((⟨0, 0⟩ : V2 ℝ) - ⟨2, 0⟩) = ⟨-2, 0⟩ := by
    rw [V2.sub_def]
    norm_num
  have s4 : Real.sqrt 4 = 2 := by
    rw [show (4 : ℝ) = 2 ^ 2 by norm_num, Real.sqrt_sq (by norm_num : (0:ℝ) ≤ 2)]
  have hstep : herdScanStep ⟨0, 0⟩ herdScanInit ⟨2, 0⟩ = ⟨⟨2, 0⟩, 1, ⟨-(1/6), 0⟩, 1⟩ := by
    rw [herdScanStep_accepted herdScanInit (by rw [hd]; norm_num),
      sepContribution, if_pos ⟨by rw [hd]; norm_num, by rw [hd]; norm_num⟩, hd, s4, hsub,
      V2.normalizeOr_axis (-2) (by norm_num) ⟨1, 0⟩]
    simp only [herdScanInit, V2.scale, V2.add_def, HerdScan.mk.injEq, V2.mk.injEq]
    norm_num
  rw [show herdScan ⟨0, 0⟩ [⟨2, 0⟩] herdScanInit =
      (if 20 ≤ (herdScanStep ⟨0, 0⟩ herdScanInit ⟨2, 0⟩).sampled
        then herdScanStep ⟨0, 0⟩ herdScanInit ⟨2, 0⟩
        else herdScan ⟨0, 0⟩ [] (herdScanStep ⟨0, 0⟩ herdScanInit ⟨2, 0⟩)) from rfl,
    hstep]
  rw [if_neg (by norm_num)]
  rfl

/-- C7 is false as stated: the source normalizes the cohesion offset before
weighting it, the claim's formula does not.  With a single neighbor at
`(2, 0)` seen from the origin, the source computes
`normalize(0.9 * normalize((2,0)) + 1.5 * normalize(push)) = (-1, 0)` while
the claim's `normalize(0.9 * (2,0) + 1.5 * normalize(push))` gives `(1, 0)` —
opposite directions. -/
theorem herding_cohesion_counterexample :
    herdDirUpdate ⟨0, 0⟩ [⟨2, 0⟩] = ⟨-1, 0⟩ ∧
    specHerdDir ⟨0, 0⟩ [⟨2, 0⟩] = ⟨1, 0⟩ ∧
    (⟨-1, 0⟩ : V2 ℝ) ≠ ⟨1, 0⟩ := by
  have habs2 : |(2 : ℝ)| = 2 := abs_two
  have habs6 : |(-(1/6) : ℝ)| = 1/6 := by
    rw [abs_of_neg (by norm_num : (-(1/6) : ℝ) < 0)]
    norm_num
  have e1 : V2.scale (1 / (1 : ℝ)) ⟨2, 0⟩ - ⟨0, 0⟩ = (⟨2, 0⟩ : V2 ℝ) := by
    rw [V2.scale, V2.sub_def]
    norm_num
  refine ⟨?_, ?_, by norm_num [V2.mk.injEq]⟩
  · unfold herdDirUpdate
    dsimp only
    rw [herdScan_single_neighbor]
    dsimp only
    rw [if_neg (by norm_num), e1, V2.normalizeOrZero_axis 2 (by norm_num),
      V2.normalizeOrZero_axis (-(1/6)) (by norm_num), habs2, habs6]
    rw [show V2.scale (9/10) (⟨2 / 2, 0⟩ : V2 ℝ) = ⟨9/10, 0⟩ by rw [V2.scale]; norm_num,
      show V2.scale (3/2) (⟨-(1/6) / (1/6), 0⟩ : V2 ℝ) = ⟨-(3/2), 0⟩ by
        rw [V2.scale]; norm_num,
      show (⟨9/10, 0⟩ : V2 ℝ) + ⟨-(3/2), 0⟩ = ⟨-(3/5), 0⟩ by rw [V2.add_def]; norm_num,
      V2.normalizeOrZero_axis (-(3/5)) (by norm_num),
      abs_of_neg (by norm_num : (-(3/5) : ℝ) < 0)]
    norm_num
  · unfold specHerdDir
    dsimp only
    rw [herdScan_single_neighbor]
    dsimp only
    rw [if_neg (by norm_num), e1, V2.normalizeOrZero_axis (-(1/6)) (by norm_num), habs6]
    rw [show V2.scale (9/10) (⟨2, 0⟩ : V2 ℝ) = ⟨9/5, 0⟩ by rw [V2.scale]; norm_num,
      show V2.scale (3/2) (⟨-(1/6) / (1/6), 0⟩ : V2 ℝ) = ⟨-(3/2), 0⟩ by
        rw [V2.scale]; norm_num,
      show (⟨9/5, 0⟩ : V2 ℝ) + ⟨-(3/2), 0⟩ = ⟨3/10, 0⟩ by rw [V2.add_def]; norm_num,
      V2.normalizeOrZero_axis (3/10) (by norm_num),
      abs_of_pos (by norm_num : (0 : ℝ) < 3/10)]
    norm_num

/-- Witness for C7 on the single-neighbor configuration. -/
theorem herding_direction_formula_witness :
    (herdNear (⟨0, 0⟩ : V2 ℝ) [⟨2, 0⟩] = [] →
      herdDirUpdate ⟨0, 0⟩ [⟨2, 0⟩] = ⟨0, 0⟩) ∧
    (herdNear (⟨0, 0⟩ : V2 ℝ) [⟨2, 0⟩] ≠ [] → herdDirUpdate ⟨0, 0⟩ [⟨2, 0⟩] =
      (V2.scale (9/10) (V2.scale (1 / ((herdNear (⟨0, 0⟩ : V2 ℝ) [⟨2, 0⟩]).length : ℝ))
          (herdCentroidSum ⟨0, 0⟩ [⟨2, 0⟩]) - ⟨0, 0⟩).normalizeOrZero +
        V2.scale (3/2)
          (herdSeparationSum ⟨0, 0⟩ [⟨2, 0⟩]).normalizeOrZero).normalizeOrZero) :=
  herding_direction_formula ⟨0, 0⟩ [⟨2, 0⟩]
    (by simp [herdNear, List.filter, V2.sub_def, V2.lengthSq]; norm_num)

end Game
